import Mathlib

/-!
Shallow embedding of the extraction-and-matching pipeline of the
`sustainability-lens` repository (files `backend/utils/extract.py` and
`backend/main.py`), together with theorems settling the spec claims.

Strings are modelled as `List Char` (`Str`).  Python float arithmetic on page
coordinates and confidences is modelled over `ℚ`.  The external
`rapidfuzz.fuzz.partial_ratio` function is modelled as an abstract parameter
`ratio : Str → Str → ℚ`; every theorem quantifies over it, and concrete
instantiations are used for counterexamples and witnesses.
-/

/-- Characters are the unit of Python strings; a Python string is a `List Char`. -/
abbrev Str := List Char

/-- Whitespace characters recognised by Python `str.strip`, `str.split` and the
regex class `\s` on ASCII text: space, tab, newline, carriage return, vertical
tab and form feed. -/
def pySpace (c : Char) : Bool :=
  c == ' ' || c == '\t' || c == '\n' || c == '\r' || c == '\x0B' || c == '\x0C'

/-- Python `str.lower` restricted to ASCII letters (all catalog keywords and
all text exercised by the claims are ASCII). -/
def lower (s : Str) : Str := s.map Char.toLower

/-- Python `str.strip()`: drop leading and trailing whitespace. -/
def strip (s : Str) : Str :=
  ((s.dropWhile pySpace).reverse.dropWhile pySpace).reverse

/-- Python substring test `needle in hay` (contiguous substring; the empty
needle is contained in everything). -/
def isSub (needle : Str) : Str → Bool
  | [] => needle.isEmpty
  | c :: cs => needle.isPrefixOf (c :: cs) || isSub needle cs

/-- Python `hay.find(needle)`: index of the first occurrence, `none` for -1. -/
def findSub (needle : Str) : Str → Nat → Option Nat
  | [], i => if needle.isEmpty then some i else none
  | c :: cs, i => if needle.isPrefixOf (c :: cs) then some i else findSub needle cs (i + 1)

/-- Regex substitution `re.sub(r'\s+', ' ', s)`: collapse every run of
whitespace into a single space. -/
def normWs : Str → Str
  | [] => []
  | c :: cs =>
    if pySpace c then
      match cs with
      | d :: _ => if pySpace d then normWs cs else ' ' :: normWs cs
      | [] => [' ']
    else c :: normWs cs

/-- Python `str.split()` (no argument): words separated by whitespace runs,
with no empty words. -/
def splitWsAux : Str → Str → List Str
  | [], acc => if acc.isEmpty then [] else [acc.reverse]
  | c :: cs, acc =>
    if pySpace c then
      if acc.isEmpty then splitWsAux cs [] else acc.reverse :: splitWsAux cs []
    else splitWsAux cs (c :: acc)

/-- Python `str.split()` entry point. -/
def splitWs (s : Str) : List Str := splitWsAux s []

/-- Sentence-terminal punctuation of the segmenter regex `[.!?]+`
(extract.py line 321). -/
def isTerm (c : Char) : Bool := c == '.' || c == '!' || c == '?'

/-- Python `re.split(r'[.!?]+', text)` (extract.py line 321): split at maximal
runs of sentence-terminal punctuation; boundary runs contribute empty
fragments exactly as `re.split` does. -/
def splitTerm : Str → List Str
  | [] => [[]]
  | c :: cs =>
    let rest := splitTerm cs
    if isTerm c then
      match cs with
      | d :: _ => if isTerm d then rest else [] :: rest
      | [] => [] :: rest
    else
      match rest with
      | [] => [[c]]
      | f :: fs => (c :: f) :: fs

/-- Sentence segmenter of extract.py lines 321-322:
`sentences = re.split(r'[.!?]+', text)` followed by
`[s.strip() for s in sentences if len(s.strip()) > 20]`. -/
def segmentSentences (text : Str) : List Str :=
  ((splitTerm text).map strip).filter (fun s => decide (20 < s.length))

/-- Text span of PyMuPDF `page.get_text("dict")`: a text fragment with its
bounding box in page units (extract.py lines 199-212). -/
structure Span where
  text : Str
  x1 : ℚ
  y1 : ℚ
  x2 : ℚ
  y2 : ℚ
deriving DecidableEq

/-- Line of a PyMuPDF text block; `spans := none` models a line dictionary
without a `"spans"` key (skipped at extract.py line 192). -/
structure Line where
  spans : Option (List Span)
deriving DecidableEq

/-- Block of a PyMuPDF text dictionary; `lines := none` models a block
without a `"lines"` key (skipped at extract.py line 188). -/
structure Block where
  lines : Option (List Line)
deriving DecidableEq

/-- Per-page layout record built by `extract_selectable_text`
(extract.py lines 111-117): 1-based page number, page dimensions, the text
dictionary and the raw page text. -/
structure PageLayout where
  page_num : Int
  width : ℚ
  height : ℚ
  blocks : List Block
  raw_text : Str
deriving DecidableEq

/-- Result record of the matcher, mirroring the `ESGMatch` pydantic model
(extract.py lines 81-90); `bbox` is `[x1, y1, x2, y2]` in page percentages. -/
structure ESGMatch where
  id : String
  framework : String
  description : String
  evidence : Str
  page_number : Int
  confidence : ℚ
  category : String
  bbox : List ℚ
deriving DecidableEq

/-- ESG framework catalog `ESG_FRAMEWORKS` (extract.py lines 19-79), in
source order: framework name paired with its keyword variants. -/
def ESG_FRAMEWORKS : List (String × List String) := [
  ("Science Based Targets initiative", [
    "science based targets", "sbti", "science-based targets",
    "1.5Â°c pathway", "net zero targets", "carbon reduction targets"]),
  ("Social & Labor Convergence Program", [
    "slcp", "social labor convergence", "labor convergence program",
    "slcp assessment", "slcp audit", "social compliance audit"]),
  ("Higg Facility Environmental Module", [
    "higg fem", "higg facility environmental", "sustainable apparel coalition",
    "higg index", "environmental module", "facility environmental assessment"]),
  ("Zero Discharge of Hazardous Chemicals", [
    "zdhc", "zero discharge hazardous", "hazardous chemicals discharge",
    "chemical management", "wastewater guidelines", "textile chemicals"]),
  ("Global Reporting Initiative", [
    "gri standards", "global reporting initiative", "gri framework",
    "sustainability reporting standards", "gri disclosure"]),
  ("Task Force on Climate-related Financial Disclosures", [
    "tcfd", "climate-related financial disclosures", "climate risk disclosure",
    "financial climate risk", "tcfd recommendations"]),
  ("Fair Labor Association", [
    "fair labor association", "fla accreditation", "workplace standards",
    "labor rights monitoring", "fla compliance"]),
  ("UN Global Compact", [
    "un global compact", "united nations global compact", "global compact principles",
    "ten principles", "human rights principles"]),
  ("Carbon Disclosure Project", [
    "cdp", "carbon disclosure project", "climate disclosure",
    "environmental disclosure", "carbon reporting"]),
  ("Sustainability Accounting Standards Board", [
    "sasb", "sustainability accounting standards", "sasb standards",
    "industry-specific sustainability", "material sustainability issues"]),
  ("ISO 14001", [
    "iso 14001", "environmental management system", "environmental certification",
    "iso environmental standard"]),
  ("B Corporation Certification", [
    "b corp", "b corporation", "benefit corporation", "b corp certification",
    "social and environmental performance", "certified b corp"]),
  ("Forest Stewardship Council", [
    "fsc", "forest stewardship council", "fsc certified", "responsible forestry",
    "sustainable forest management"]),
  ("Cradle to Cradle Certified", [
    "cradle to cradle", "c2c certified", "circular design", "material health assessment"]),
  ("LEED Certification", [
    "leed", "leadership in energy environmental design", "green building certification",
    "leed certified", "sustainable building"])]

/-- Apostrophe character, used to transcribe source strings verbatim. -/
def apos : String := String.singleton (Char.ofNat 39)

/-- Framework description table of `generate_framework_description`
(extract.py lines 376-392). -/
def descriptions : List (String × String) := [
  ("Science Based Targets initiative", "Nike has committed to science-based targets for reducing greenhouse gas emissions in line with climate science."),
  ("Social & Labor Convergence Program", "Nike conducts supplier assessments through the SLCP framework to ensure social and labor compliance across its supply chain."),
  ("Higg Facility Environmental Module", "Environmental assessments of manufacturing facilities using the Sustainable Apparel Coalition" ++ apos ++ "s Higg FEM tool."),
  ("Zero Discharge of Hazardous Chemicals", "Nike implements ZDHC wastewater testing protocols to eliminate hazardous chemical discharge from manufacturing processes."),
  ("Global Reporting Initiative", "Nike follows GRI standards for sustainability reporting and disclosure of environmental, social and governance performance."),
  ("Task Force on Climate-related Financial Disclosures", "Nike provides climate-related financial disclosures following TCFD recommendations for governance, strategy, risk management and metrics."),
  ("Fair Labor Association", "Nike maintains accreditation with the Fair Labor Association for workplace standards monitoring and compliance."),
  ("UN Global Compact", "Nike is a signatory to the UN Global Compact, committing to align operations with universal principles on human rights, labor, environment and anti-corruption."),
  ("Carbon Disclosure Project", "Nike participates in CDP climate and environmental disclosure programs for transparency in environmental impact."),
  ("Sustainability Accounting Standards Board", "Nike follows SASB standards for industry-specific sustainability accounting and disclosure."),
  ("ISO 14001", "Environmental management system certification demonstrating commitment to environmental performance improvement."),
  ("B Corporation Certification", "Certification demonstrating high standards of social and environmental performance, accountability, and transparency."),
  ("Forest Stewardship Council", "FSC certification ensures responsible forestry practices in supply chain materials and packaging."),
  ("Cradle to Cradle Certified", "Product certification for circular design principles and material health assessment."),
  ("LEED Certification", "Green building certification for leadership in energy and environmental design of facilities.")]

/-- Implementation of `generate_framework_description` (extract.py
lines 373-394): dictionary lookup with an f-string default. -/
def generate_framework_description (framework_name : String) : String :=
  match descriptions.find? (fun p => p.1 == framework_name) with
  | some p => p.2
  | none => "Implementation of " ++ framework_name ++ " standards and practices in sustainability operations."

/-- Environmental keyword set of `categorize_framework` (extract.py
lines 281-284). -/
def environmental_keywords : List String := [
  "climate", "carbon", "environmental", "emission", "energy",
  "waste", "water", "forest", "chemical", "pollution", "circular"]

/-- Social keyword set of `categorize_framework` (extract.py lines 286-289). -/
def social_keywords : List String := [
  "labor", "social", "human rights", "fair", "worker", "community",
  "diversity", "health", "safety", "supply chain"]

/-- Governance keyword set of `categorize_framework` (extract.py
lines 291-294). -/
def governance_keywords : List String := [
  "governance", "reporting", "disclosure", "compliance", "standards",
  "ethics", "transparency", "accountability", "risk management"]

/-- Keyword scoring step of `categorize_framework`: count how many keywords
of a set occur as substrings of the lowercased framework name. -/
def countSubs (kws : List String) (nameLower : Str) : Nat :=
  (kws.filter (fun kw => isSub kw.data nameLower)).length

/-- Implementation of `categorize_framework` (extract.py lines 278-307),
with the source tie-break order `env >= social and env >= gov`, then
`social >= gov`. -/
def categorize_framework (framework_name : String) : String :=
  let fl := lower framework_name.data
  let env_score := countSubs environmental_keywords fl
  let social_score := countSubs social_keywords fl
  let gov_score := countSubs governance_keywords fl
  if social_score ≤ env_score ∧ gov_score ≤ env_score then "Environmental"
  else if gov_score ≤ social_score then "Social"
  else "Governance"

/-- Line-flattening step of `compute_sentence_bbox` (extract.py
lines 187-192): iterate over blocks that have a `"lines"` key and over their
lines that have a `"spans"` key, yielding each line as its span list. -/
def pageLines (blocks : List Block) : List (List Span) :=
  ((blocks.filterMap Block.lines).flatten).filterMap Line.spans

/-- Line-text accumulation of extract.py lines 196-201:
`line_text += span_text + " "` over the spans of one line. -/
def lineText (spans : List Span) : Str :=
  (spans.map (fun sp => sp.text ++ [' '])).flatten

/-- One-span step of the line bounding-box accumulation (extract.py
lines 203-212): `None` becomes the span box, otherwise the component-wise
min/max union with the span box. -/
def lineBoxStep (acc : Option (ℚ × ℚ × ℚ × ℚ)) (sp : Span) : Option (ℚ × ℚ × ℚ × ℚ) :=
  match acc with
  | none => some (sp.x1, sp.y1, sp.x2, sp.y2)
  | some (a, b, c, d) => some (min a sp.x1, min b sp.y1, max c sp.x2, max d sp.y2)

/-- Line bounding-box accumulation of extract.py lines 197-212: `None` until
the first span, then the component-wise min/max union of span boxes. -/
def lineBox (spans : List Span) : Option (ℚ × ℚ × ℚ × ℚ) :=
  spans.foldl lineBoxStep none

/-- Word-overlap score of extract.py lines 215-223: the fraction of sentence
words occurring as substrings of the normalised line text. -/
def lineScore (words : List Str) (spans : List Span) : ℚ :=
  ((words.filter (fun w => isSub w (normWs (lower (strip (lineText spans)))))).length : ℚ)
    / (words.length : ℚ)

/-- One-line step of the best-line selection loop of extract.py
lines 214-228: keep the line when its score beats the running best, exceeds
the 0.3 threshold and the line has a box. -/
def bestStep (words : List Str) (best : ℚ × Option (ℚ × ℚ × ℚ × ℚ))
    (spans : List Span) : ℚ × Option (ℚ × ℚ × ℚ × ℚ) :=
  let score := lineScore words spans
  let lb := lineBox spans
  if best.1 < score ∧ 3 / 10 < score ∧ lb.isSome then (score, lb) else best

/-- Best-line selection loop of extract.py lines 184-228: track the highest
word-overlap score above the 0.3 threshold together with its line box. -/
def bestLineBox (words : List Str) (liness : List (List Span)) : Option (ℚ × ℚ × ℚ × ℚ) :=
  (liness.foldl (bestStep words) ((0 : ℚ), (none : Option (ℚ × ℚ × ℚ × ℚ)))).2

/-- Implementation of `compute_sentence_bbox` (extract.py lines 166-263).
The `width = 0 ∨ height = 0` test models the `ZeroDivisionError` that the
float divisions at lines 232-235 would raise, caught by the surrounding
`except` which returns `[10, 45, 90, 55]`; all other code paths are direct
translations.  Output is `[x1, y1, x2, y2]` in page percentages. -/
def compute_sentence_bbox (sentence : Str) (pl : PageLayout) : List ℚ :=
  let sentence_clean := normWs (strip sentence)
  let sentence_words := splitWs (lower sentence_clean)
  if sentence_words.isEmpty then [10, 45, 90, 55]
  else
    match bestLineBox sentence_words (pageLines pl.blocks) with
    | some (a, b, c, d) =>
      if pl.width = 0 ∨ pl.height = 0 then [10, 45, 90, 55]
      else
        let x1_pct := a / pl.width * 100
        let y1_pct := b / pl.height * 100
        let x2_pct := c / pl.width * 100
        let y2_pct := d / pl.height * 100
        [max 0 (x1_pct - 2), max 0 (y1_pct - 2), min 100 (x2_pct + 2), min 100 (y2_pct + 2)]
    | none =>
      match findSub (lower (sentence_clean.take 50)) (lower pl.raw_text) 0 with
      | some start_idx =>
        let lns : ℚ := ((pl.raw_text.take start_idx).count '\n' : ℚ)
        let total_lines : ℚ := ((pl.raw_text.count '\n' : Nat) : ℚ) + 1
        let estimated_y := if 0 < total_lines then lns / total_lines * 100 else 10
        [5, max 0 (estimated_y - 3), 95, min 100 (estimated_y + 8)]
      | none => [10, 45, 90, 55]

/-- Implementation of `find_sentence_in_pages` (extract.py lines 265-276):
return the first page whose raw text contains the whitespace-normalised
sentence case-insensitively, with its computed box; default to page 1 with
the full-page box `[0, 0, 100, 100]`. -/
def find_sentence_in_pages (sentence : Str) (page_layouts : List PageLayout) : Int × List ℚ :=
  match page_layouts.find? (fun pl => isSub (lower (normWs (strip sentence))) (lower pl.raw_text)) with
  | some pl => (pl.page_num, compute_sentence_bbox sentence pl)
  | none => (1, [0, 0, 100, 100])

/-- Exact keyword scan of extract.py lines 334-338: the first keyword variant
whose lowercase form is a substring of the lowercased sentence. -/
def exactFind (keywords : List String) (sentence_lower : Str) : Option String :=
  keywords.find? (fun kw => isSub (lower kw.data) sentence_lower)

/-- Fuzzy keyword scan of extract.py lines 342-346: the first keyword variant
whose partial-ratio similarity against the lowercased sentence exceeds 80. -/
def fuzzyFind (ratio : Str → Str → ℚ) (keywords : List String) (sentence_lower : Str) : Option String :=
  keywords.find? (fun kw => decide (80 < ratio (lower kw.data) sentence_lower))

/-- One sentence step of the per-framework accumulator loop of extract.py
lines 330-346: exact keyword containment appends `(sentence, 95/85)`; fuzzy
matching runs only while the accumulator `best_matches` is still empty and
appends `(sentence, min(ratio, 90))`. -/
def stepSentence (ratio : Str → Str → ℚ) (keywords : List String)
    (acc : List (Str × ℚ)) (sentence : Str) : List (Str × ℚ) :=
  match exactFind keywords (lower sentence) with
  | some kw => acc ++ [(sentence, if 10 < kw.length then (95 : ℚ) else 85)]
  | none =>
    if acc.isEmpty then
      match fuzzyFind ratio keywords (lower sentence) with
      | some kw => acc ++ [(sentence, min (ratio (lower kw.data) (lower sentence)) 90)]
      | none => acc
    else acc

/-- Accumulator `best_matches` for one framework over all candidate
sentences (extract.py lines 327-346). -/
def best_matches (ratio : Str → Str → ℚ) (keywords : List String)
    (sentences : List Str) : List (Str × ℚ) :=
  sentences.foldl (stepSentence ratio keywords) []

/-- Match-emission loop of extract.py lines 326-366: walk the catalog in
order, emit `best_matches[:1]` for each framework as an `ESGMatch`, and
increment `match_id` only when a match is emitted. -/
def buildMatches (ratio : Str → Str → ℚ) (page_layouts : List PageLayout)
    (sentences : List Str) : List (String × List String) → Nat → List ESGMatch
  | [], _ => []
  | (framework_name, keywords) :: rest, match_id =>
    match (best_matches ratio keywords sentences).head? with
    | some (sentence, confidence) =>
      let pb := find_sentence_in_pages sentence page_layouts
      { id := toString match_id
        framework := framework_name
        description := generate_framework_description framework_name
        evidence := strip sentence
        page_number := pb.1
        confidence := confidence
        category := categorize_framework framework_name
        bbox := pb.2 } :: buildMatches ratio page_layouts sentences rest (match_id + 1)
    | none => buildMatches ratio page_layouts sentences rest match_id

/-- Stable insertion of a match into a confidence-descending list: the new
match goes after every match of strictly greater confidence and before
matches of equal confidence, matching the stability of Python `sorted`. -/
def insertDesc (x : ESGMatch) : List ESGMatch → List ESGMatch
  | [] => [x]
  | y :: ys => if x.confidence < y.confidence then y :: insertDesc x ys else x :: y :: ys

/-- Stable descending sort by confidence, implementing
`sorted(matches, key=lambda x: x.confidence, reverse=True)`
(extract.py line 369); as a stable sort on the same key it is extensionally
identical to Python `sorted` with `reverse=True`. -/
def sortByConfDesc (l : List ESGMatch) : List ESGMatch := l.foldr insertDesc []

/-- Implementation of `find_framework_matches` (extract.py lines 309-371):
segment the text, run the per-framework matching loop over the catalog, and
stably sort the matches by confidence descending.  `document_name` is
accepted and unused exactly as in the source. -/
def find_framework_matches (ratio : Str → Str → ℚ) (text_content : Str)
    (page_layouts : List PageLayout) (document_name : String) : List ESGMatch :=
  let sentences := segmentSentences text_content
  sortByConfDesc (buildMatches ratio page_layouts sentences ESG_FRAMEWORKS 1)

/-- Model of a `run_tesseract_on_pages` result (extract.py lines 128-164):
per-page OCR text with 1-based page numbers; the empty list models both "OCR
unavailable" and "OCR failed". -/
abbrev OcrResults := List (Str × Int)

/-- Outcome of the text-sufficiency step of `process_pdf_document`
(main.py lines 117-131): the final text content, the extraction-method tag,
and whether the OCR fallback was invoked at all. -/
structure ExtractOutcome where
  text_content : Str
  extraction_method : String
  ocr_consulted : Bool
deriving DecidableEq

/-- Extraction-method resolution of `process_pdf_document` (main.py
lines 117-131): below 200 trimmed characters the OCR fallback runs; nonempty
OCR output is joined with a blank line and appended (or used alone when the
selectable text is pure whitespace) with tag "ocr", empty OCR output keeps
the text with tag "limited"; otherwise the tag stays "selectable" and OCR is
never invoked. -/
def resolveExtraction (text0 : Str) (ocr_results : OcrResults) : ExtractOutcome :=
  if (strip text0).length < 200 then
    if ocr_results.isEmpty then
      { text_content := text0, extraction_method := "limited", ocr_consulted := true }
    else
      let ocr_text := List.intercalate ['\n', '\n'] (ocr_results.map Prod.fst)
      { text_content :=
          if (strip text0).isEmpty then ocr_text
          else text0 ++ ['\n', '\n'] ++ ocr_text
        extraction_method := "ocr"
        ocr_consulted := true }
  else
    { text_content := text0, extraction_method := "selectable", ocr_consulted := false }

/-- Page-count computation of main.py line 141:
`len(page_layouts) if page_layouts else 1`. -/
def total_pages (page_layouts : List PageLayout) : Nat :=
  if page_layouts.isEmpty then 1 else page_layouts.length

/-- Spec predicate of claim C8: a bounding box `[x1, y1, x2, y2]` lies inside
the page with ordered corners. -/
def bboxOK : List ℚ → Prop
  | [x1, y1, x2, y2] => 0 ≤ x1 ∧ x1 ≤ x2 ∧ x2 ≤ 100 ∧ 0 ≤ y1 ∧ y1 ≤ y2 ∧ y2 ≤ 100
  | _ => False

/-- Well-formedness of a PyMuPDF span box: ordered corners inside the page
rectangle, as `page.get_text("dict")` produces for a page of the given
dimensions. -/
abbrev WFSpan (w h : ℚ) (sp : Span) : Prop :=
  0 ≤ sp.x1 ∧ sp.x1 ≤ sp.x2 ∧ sp.x2 ≤ w ∧ 0 ≤ sp.y1 ∧ sp.y1 ≤ sp.y2 ∧ sp.y2 ≤ h

/-- Well-formedness of a page layout as produced by `extract_selectable_text`
on a real PDF: positive page dimensions and span boxes inside the page. -/
abbrev WFLayout (pl : PageLayout) : Prop :=
  0 < pl.width ∧ 0 < pl.height ∧
    ∀ spans ∈ pageLines pl.blocks, ∀ sp ∈ spans, WFSpan pl.width pl.height sp

/-- Invariant carried through the box-accumulation loops: an optional box is
either absent or lies inside a page of the given dimensions with ordered
corners. -/
def boxIn (w h : ℚ) : Option (ℚ × ℚ × ℚ × ℚ) → Prop
  | none => True
  | some (a, b, c, d) => 0 ≤ a ∧ a ≤ c ∧ c ≤ w ∧ 0 ≤ b ∧ b ≤ d ∧ d ≤ h

/-- Ratio model with no fuzzy hits, for runs where only exact matching acts. -/
def zeroRatio : Str → Str → ℚ := fun _ _ => 0

/-- Concrete document text used by witnesses: one sentence with an exact
"science based targets" keyword hit. -/
def exText : Str := "We are committed to science based targets across all operations.".data

/-- Stripped fragment of `exText` produced by the segmenter. -/
def exFrag : Str := "We are committed to science based targets across all operations".data

/-- Concrete span holding the whole example sentence. -/
def exSpan : Span := { text := exText, x1 := 10, y1 := 20, x2 := 90, y2 := 30 }

/-- Concrete one-page layout for the example document. -/
def exLayout : PageLayout :=
  { page_num := 1, width := 100, height := 100,
    blocks := [{ lines := some [{ spans := some [exSpan] }] }], raw_text := exText }

/-- Match emitted by the pipeline on the example document. -/
def exMatch : ESGMatch :=
  { id := "1", framework := "Science Based Targets initiative",
    description := "Nike has committed to science-based targets for reducing greenhouse gas emissions in line with climate science.",
    evidence := exFrag, page_number := 1, confidence := 95,
    category := "Environmental", bbox := [8, 18, 92, 32] }

/-- Sentence used as a not-found locator query in claim C1. -/
def c1sent : Str := "zq zq zq zq zq zq zq zq".data

/-- Document text of exactly 20 non-whitespace characters, exercising the
segmenter length threshold of claim C3. -/
def c3text : Str := "abcdefghijklmnopqrst".data

/-- First sentence of the claim C2 counterexample document: close to the
keyword "sustainability accounting standards" but containing no keyword
variant of any framework. -/
def c2s1 : Str := "our sustainability accounting standard framework guides us".data

/-- Second sentence of the claim C2 counterexample document: contains the
exact keyword "sasb". -/
def c2s2 : Str := "we follow sasb guidance for reporting metrics here".data

/-- Document text of the claim C2 counterexample. -/
def c2text : Str :=
  "our sustainability accounting standard framework guides us. we follow sasb guidance for reporting metrics here.".data

/-- Partial-ratio model for the claim C2 counterexample: similarity 95
between the keyword "sustainability accounting standards" and the first
sentence (rapidfuzz reports such near-miss scores for a missing plural),
similarity 0 elsewhere. -/
def c2ratio : Str → Str → ℚ :=
  fun k s => if k = "sustainability accounting standards".data ∧ s = c2s1 then 95 else 0

/-- Keyword variants of the "Sustainability Accounting Standards Board"
catalog entry. -/
def sasbKeywords : List String :=
  ["sasb", "sustainability accounting standards", "sasb standards",
   "industry-specific sustainability", "material sustainability issues"]

/-- Match emitted by the pipeline on the claim C2 counterexample document:
fuzzy-derived evidence from the first sentence. -/
def c2match : ESGMatch :=
  { id := "1", framework := "Sustainability Accounting Standards Board",
    description := "Nike follows SASB standards for industry-specific sustainability accounting and disclosure.",
    evidence := c2s1, page_number := 1, confidence := 90,
    category := "Governance", bbox := [0, 0, 100, 100] }

/-- Keyword variants of the "UN Global Compact" catalog entry. -/
def ungcKeywords : List String :=
  ["un global compact", "united nations global compact", "global compact principles",
   "ten principles", "human rights principles"]

/-- Keyword variants of the "Science Based Targets initiative" catalog
entry. -/
def sbtiKeywords : List String :=
  ["science based targets", "sbti", "science-based targets",
   "1.5Â°c pathway", "net zero targets", "carbon reduction targets"]

lemma splitTerm_ne_nil (s : Str) : splitTerm s ≠ [] := by
  induction s with
  | nil => simp [splitTerm]
  | cons c cs ih =>
    simp only [splitTerm]
    by_cases h : isTerm c
    · rw [if_pos h]
      cases cs with
      | nil => simp
      | cons d ds =>
        by_cases hd : isTerm d
        · simpa [hd] using ih
        · simp [hd]
    · rw [if_neg h]
      cases hrest : splitTerm cs with
      | nil => simp
      | cons f fs => simp

lemma splitTerm_no_term (s : Str) : ∀ frag ∈ splitTerm s, ∀ c ∈ frag, isTerm c = false := by
  induction s with
  | nil =>
    intro frag hf c hc
    simp only [splitTerm, List.mem_singleton] at hf
    subst hf
    simp at hc
  | cons a as ih =>
    intro frag hf c hc
    simp only [splitTerm] at hf
    by_cases h : isTerm a
    · rw [if_pos h] at hf
      cases as with
      | nil =>
        dsimp only at hf
        simp only [List.mem_cons] at hf
        rcases hf with hf | hf
        · subst hf; simp at hc
        · exact ih frag hf c hc
      | cons d ds =>
        dsimp only at hf
        by_cases hd : isTerm d
        · rw [if_pos hd] at hf
          exact ih frag hf c hc
        · rw [if_neg hd] at hf
          simp only [List.mem_cons] at hf
          rcases hf with hf | hf
          · subst hf; simp at hc
          · exact ih frag hf c hc
    · rw [if_neg h] at hf
      cases hrest : splitTerm as with
      | nil => exact absurd hrest (splitTerm_ne_nil as)
      | cons f fs =>
        rw [hrest] at hf
        dsimp only at hf
        simp only [List.mem_cons] at hf
        rcases hf with hf | hf
        · subst hf
          simp only [List.mem_cons] at hc
          rcases hc with hc | hc
          · subst hc
            simpa using h
          · exact ih f (by rw [hrest]; exact List.mem_cons_self f fs) c hc
        · exact ih frag (by rw [hrest]; exact List.mem_cons_of_mem f hf) c hc

/-- Claim C3 (amended): the segmenter splits the document at runs of
sentence-terminal punctuation (fragments contain no `.`, `!` or `?`), keeps
the fragments in document order, and keeps exactly the fragments whose
trimmed length is strictly greater than 20 characters (so fragments of
trimmed length 20 are discarded, not kept as the claim stated). -/
theorem C3_segmenter_threshold (text : Str) :
    segmentSentences text = ((splitTerm text).map strip).filter (fun s => decide (20 < s.length)) ∧
    (segmentSentences text).Sublist ((splitTerm text).map strip) ∧
    (∀ s ∈ segmentSentences text, 20 < s.length) ∧
    (∀ frag ∈ splitTerm text, 20 < (strip frag).length → strip frag ∈ segmentSentences text) ∧
    (∀ frag ∈ splitTerm text, ∀ c ∈ frag, isTerm c = false) := by
  refine ⟨rfl, List.filter_sublist _, ?_, ?_, splitTerm_no_term text⟩
  · intro s hs
    have := List.of_mem_filter hs
    simpa using this
  · intro frag hf hlen
    refine List.mem_filter.mpr ⟨List.mem_map_of_mem strip hf, by simpa using hlen⟩

/-- Claim C3 counterexample: a document consisting of a single fragment of
trimmed length exactly 20 is discarded by the segmenter, although the claim
says every fragment of trimmed length 20 or more is kept. -/
theorem C3_counterexample :
    c3text ∈ splitTerm c3text ∧ (strip c3text).length = 20 ∧ segmentSentences c3text = [] := by
  decide

/-- Witness for C3_segmenter_threshold at a concrete document. -/
theorem C3_witness :
    exFrag ∈ splitTerm exText ∧ 20 < (strip exFrag).length ∧
      strip exFrag ∈ segmentSentences exText :=
  ⟨by decide, by decide, (C3_segmenter_threshold exText).2.2.2.1 exFrag (by decide) (by decide)⟩

lemma dropWhile_dropWhile (p : Char → Bool) (l : Str) :
    (l.dropWhile p).dropWhile p = l.dropWhile p := by
  induction l with
  | nil => rfl
  | cons c cs ih =>
    by_cases h : p c
    · simp [List.dropWhile_cons, h, ih]
    · simp [List.dropWhile_cons, h]

lemma exists_append_dropWhile (p : Char → Bool) (l : Str) :
    ∃ t, t ++ l.dropWhile p = l := by
  induction l with
  | nil => exact ⟨[], rfl⟩
  | cons c cs ih =>
    by_cases h : p c
    · obtain ⟨t, ht⟩ := ih
      exact ⟨c :: t, by simp [List.dropWhile_cons, h, ht]⟩
    · exact ⟨[], by simp [List.dropWhile_cons, h]⟩

lemma dropWhile_eq_self_head (p : Char → Bool) (c : Char) (l : Str)
    (h : (c :: l).dropWhile p = c :: l) : p c = false := by
  by_cases hc : p c
  · exfalso
    rw [List.dropWhile_cons, if_pos hc] at h
    have hlen := congrArg List.length h
    have hle := (List.dropWhile_sublist (l := l) p).length_le
    simp only [List.length_cons] at hlen
    omega
  · simpa using hc

lemma strip_strip (s : Str) : strip (strip s) = strip s := by
  unfold strip
  have ht : (s.dropWhile pySpace).dropWhile pySpace = s.dropWhile pySpace :=
    dropWhile_dropWhile pySpace s
  set t := s.dropWhile pySpace with ht_def
  set u := (t.reverse.dropWhile pySpace).reverse with hu_def
  have hrev : u.reverse = t.reverse.dropWhile pySpace := by
    rw [hu_def, List.reverse_reverse]
  have hu : u.dropWhile pySpace = u := by
    cases hu_eq : u with
    | nil => rfl
    | cons c u2 =>
      obtain ⟨w, hw⟩ := exists_append_dropWhile pySpace t.reverse
      have htu : t = u ++ w.reverse := by
        have hrw := congrArg List.reverse hw
        simp only [List.reverse_append, List.reverse_reverse] at hrw
        rw [← hrw, hu_def]
      have htc : t = c :: (u2 ++ w.reverse) := by
        rw [htu, hu_eq]; rfl
      have hpc : pySpace c = false := by
        refine dropWhile_eq_self_head pySpace c (u2 ++ w.reverse) ?_
        rw [← htc]
        exact ht
      simp [List.dropWhile_cons, hpc]
  rw [hu, hrev, dropWhile_dropWhile pySpace t.reverse]

lemma strip_of_mem_segment {s : Str} {text : Str}
    (h : s ∈ segmentSentences text) : strip s = s := by
  have hm : s ∈ (splitTerm text).map strip := List.mem_of_mem_filter h
  obtain ⟨frag, _, hfrag⟩ := List.mem_map.mp hm
  rw [← hfrag]
  exact strip_strip frag

lemma stepSentence_keeps (ratio : Str → Str → ℚ) (kws : List String)
    (acc : List (Str × ℚ)) (s : Str) :
    stepSentence ratio kws acc s = acc ∨ ∃ x, stepSentence ratio kws acc s = acc ++ [x] := by
  unfold stepSentence
  cases hex : exactFind kws (lower s) with
  | some kw => exact Or.inr ⟨_, rfl⟩
  | none =>
    by_cases ha : acc.isEmpty
    · rw [if_pos ha]
      cases hfz : fuzzyFind ratio kws (lower s) with
      | some kw => exact Or.inr ⟨_, rfl⟩
      | none => exact Or.inl rfl
    · rw [if_neg ha]
      exact Or.inl rfl

lemma foldl_step_head (ratio : Str → Str → ℚ) (kws : List String) :
    ∀ (sents : List Str) (acc : List (Str × ℚ)), acc ≠ [] →
      (sents.foldl (stepSentence ratio kws) acc).head? = acc.head? := by
  intro sents
  induction sents with
  | nil => intro acc _; rfl
  | cons s rest ih =>
    intro acc h
    rw [List.foldl_cons]
    rcases stepSentence_keeps ratio kws acc s with heq | ⟨x, heq⟩
    · rw [heq]
      exact ih acc h
    · rw [heq, ih (acc ++ [x]) (by simp)]
      cases acc with
      | nil => exact absurd rfl h
      | cons a as => simp

lemma best_matches_head (ratio : Str → Str → ℚ) (kws : List String) :
    ∀ (sents : List Str) (s : Str) (conf : ℚ),
      (best_matches ratio kws sents).head? = some (s, conf) →
      ∃ pre post, sents = pre ++ s :: post ∧
        (∀ t ∈ pre, exactFind kws (lower t) = none ∧ fuzzyFind ratio kws (lower t) = none) ∧
        ((∃ kw, exactFind kws (lower s) = some kw ∧
            conf = if 10 < kw.length then (95 : ℚ) else 85) ∨
         (exactFind kws (lower s) = none ∧
          ∃ kw, fuzzyFind ratio kws (lower s) = some kw ∧
            conf = min (ratio (lower kw.data) (lower s)) 90)) := by
  intro sents
  induction sents with
  | nil =>
    intro s conf h
    simp [best_matches] at h
  | cons t rest ih =>
    intro s conf h
    unfold best_matches at h
    rw [List.foldl_cons] at h
    cases hex : exactFind kws (lower t) with
    | some kw =>
      have hstep : stepSentence ratio kws [] t = [(t, if 10 < kw.length then (95 : ℚ) else 85)] := by
        unfold stepSentence
        rw [hex]
        rfl
      rw [hstep, foldl_step_head ratio kws rest _ (by simp)] at h
      simp only [List.head?_cons, Option.some.injEq, Prod.mk.injEq] at h
      obtain ⟨hs, hc⟩ := h
      subst hs
      exact ⟨[], rest, rfl, by simp, Or.inl ⟨kw, hex, hc.symm⟩⟩
    | none =>
      cases hfz : fuzzyFind ratio kws (lower t) with
      | some kw =>
        have hstep : stepSentence ratio kws [] t
            = [(t, min (ratio (lower kw.data) (lower t)) 90)] := by
          unfold stepSentence
          rw [hex]
          simp [hfz]
        rw [hstep, foldl_step_head ratio kws rest _ (by simp)] at h
        simp only [List.head?_cons, Option.some.injEq, Prod.mk.injEq] at h
        obtain ⟨hs, hc⟩ := h
        subst hs
        exact ⟨[], rest, rfl, by simp, Or.inr ⟨hex, kw, hfz, hc.symm⟩⟩
      | none =>
        have hstep : stepSentence ratio kws [] t = [] := by
          unfold stepSentence
          rw [hex]
          simp [hfz]
        rw [hstep] at h
        obtain ⟨pre, post, h1, h2, h3⟩ := ih s conf h
        refine ⟨t :: pre, post, by rw [h1]; rfl, ?_, h3⟩
        intro x hx
        rcases List.mem_cons.mp hx with hx | hx
        · subst hx
          exact ⟨hex, hfz⟩
        · exact h2 x hx

lemma insertDesc_perm (x : ESGMatch) (l : List ESGMatch) : (insertDesc x l).Perm (x :: l) := by
  induction l with
  | nil => exact List.Perm.refl _
  | cons y ys ih =>
    unfold insertDesc
    by_cases h : x.confidence < y.confidence
    · rw [if_pos h]
      exact (List.Perm.cons y ih).trans (List.Perm.swap x y ys)
    · rw [if_neg h]

lemma sortByConfDesc_perm (l : List ESGMatch) : (sortByConfDesc l).Perm l := by
  induction l with
  | nil => exact List.Perm.refl _
  | cons x xs ih =>
    unfold sortByConfDesc
    rw [List.foldr_cons]
    exact (insertDesc_perm x _).trans (List.Perm.cons x ih)

lemma insertDesc_sorted {x : ESGMatch} {l : List ESGMatch}
    (h : l.Pairwise (fun a b => b.confidence ≤ a.confidence)) :
    (insertDesc x l).Pairwise (fun a b => b.confidence ≤ a.confidence) := by
  induction l with
  | nil => simp [insertDesc]
  | cons y ys ih =>
    unfold insertDesc
    rw [List.pairwise_cons] at h
    by_cases hc : x.confidence < y.confidence
    · rw [if_pos hc, List.pairwise_cons]
      refine ⟨?_, ih h.2⟩
      intro z hz
      rcases List.mem_cons.mp ((insertDesc_perm x ys).mem_iff.mp hz) with hz | hz
      · subst hz
        exact le_of_lt hc
      · exact h.1 z hz
    · rw [if_neg hc, List.pairwise_cons]
      refine ⟨?_, List.pairwise_cons.mpr h⟩
      intro z hz
      rcases List.mem_cons.mp hz with hz | hz
      · subst hz
        exact le_of_not_lt hc
      · exact le_trans (h.1 z hz) (le_of_not_lt hc)

lemma sortByConfDesc_sorted (l : List ESGMatch) :
    (sortByConfDesc l).Pairwise (fun a b => b.confidence ≤ a.confidence) := by
  induction l with
  | nil => simp [sortByConfDesc]
  | cons x xs ih =>
    unfold sortByConfDesc
    rw [List.foldr_cons]
    exact insertDesc_sorted ih

lemma mem_buildMatches (ratio : Str → Str → ℚ) (layouts : List PageLayout) (sents : List Str) :
    ∀ (cat : List (String × List String)) (mid : Nat) (m : ESGMatch),
      m ∈ buildMatches ratio layouts sents cat mid →
      ∃ kws s conf, (m.framework, kws) ∈ cat ∧
        (best_matches ratio kws sents).head? = some (s, conf) ∧
        m.evidence = strip s ∧ m.confidence = conf ∧
        m.page_number = (find_sentence_in_pages s layouts).1 ∧
        m.bbox = (find_sentence_in_pages s layouts).2 := by
  intro cat
  induction cat with
  | nil =>
    intro mid m hm
    simp [buildMatches] at hm
  | cons entry rest ih =>
    intro mid m hm
    obtain ⟨fname, kws⟩ := entry
    unfold buildMatches at hm
    cases hh : (best_matches ratio kws sents).head? with
    | some sc =>
      obtain ⟨s0, conf0⟩ := sc
      rw [hh] at hm
      rcases List.mem_cons.mp hm with hm | hm
      · subst hm
        exact ⟨kws, s0, conf0, List.mem_cons_self _ _, hh, rfl, rfl, rfl, rfl⟩
      · obtain ⟨kws2, s2, conf2, h1, h2⟩ := ih (mid + 1) m hm
        exact ⟨kws2, s2, conf2, List.mem_cons_of_mem _ h1, h2⟩
    | none =>
      rw [hh] at hm
      obtain ⟨kws2, s2, conf2, h1, h2⟩ := ih mid m hm
      exact ⟨kws2, s2, conf2, List.mem_cons_of_mem _ h1, h2⟩

lemma buildMatches_fw_sublist (ratio : Str → Str → ℚ) (layouts : List PageLayout) (sents : List Str) :
    ∀ (cat : List (String × List String)) (mid : Nat),
      ((buildMatches ratio layouts sents cat mid).map ESGMatch.framework).Sublist
        (cat.map Prod.fst) := by
  intro cat
  induction cat with
  | nil => intro mid; simp [buildMatches]
  | cons entry rest ih =>
    intro mid
    obtain ⟨fname, kws⟩ := entry
    unfold buildMatches
    cases hh : (best_matches ratio kws sents).head? with
    | some sc =>
      obtain ⟨s0, conf0⟩ := sc
      simpa using List.Sublist.cons₂ fname (ih (mid + 1))
    | none =>
      simpa using List.Sublist.cons fname (ih mid)

lemma find_framework_matches_perm (ratio : Str → Str → ℚ) (text : Str)
    (layouts : List PageLayout) (dn : String) :
    (find_framework_matches ratio text layouts dn).Perm
      (buildMatches ratio layouts (segmentSentences text) ESG_FRAMEWORKS 1) :=
  sortByConfDesc_perm _

lemma mem_ffm {ratio : Str → Str → ℚ} {text : Str} {layouts : List PageLayout} {dn : String}
    {m : ESGMatch} (hm : m ∈ find_framework_matches ratio text layouts dn) :
    ∃ kws s conf, (m.framework, kws) ∈ ESG_FRAMEWORKS ∧
      (best_matches ratio kws (segmentSentences text)).head? = some (s, conf) ∧
      m.evidence = strip s ∧ m.confidence = conf ∧
      m.page_number = (find_sentence_in_pages s layouts).1 ∧
      m.bbox = (find_sentence_in_pages s layouts).2 :=
  mem_buildMatches ratio layouts (segmentSentences text) ESG_FRAMEWORKS 1 m
    ((find_framework_matches_perm ratio text layouts dn).mem_iff.mp hm)

lemma fwNames_nodup : (ESG_FRAMEWORKS.map Prod.fst).Nodup := by decide

lemma mem_fst_nodup_inj {α β : Type} :
    ∀ (l : List (α × β)), (l.map Prod.fst).Nodup →
      ∀ {a : α} {b b2 : β}, (a, b) ∈ l → (a, b2) ∈ l → b = b2 := by
  intro l
  induction l with
  | nil =>
    intro _ a b b2 hb
    simp at hb
  | cons p rest ih =>
    intro hnd a b b2 hb hb2
    simp only [List.map_cons, List.nodup_cons] at hnd
    rcases List.mem_cons.mp hb with hb | hb <;> rcases List.mem_cons.mp hb2 with hb2 | hb2
    · rw [← hb2] at hb
      exact (Prod.mk.injEq _ _ _ _ ▸ hb).2
    · exfalso
      apply hnd.1
      have hp : p.1 = a := by rw [← hb]
      rw [hp]
      exact List.mem_map.mpr ⟨(a, b2), hb2, rfl⟩
    · exfalso
      apply hnd.1
      have hp : p.1 = a := by rw [← hb2]
      rw [hp]
      exact List.mem_map.mpr ⟨(a, b), hb, rfl⟩
    · exact ih hnd.2 hb hb2

/-- Claim C7: the returned match list is sorted by confidence in descending
order, so each adjacent pair satisfies `confidence[i] ≥ confidence[i+1]`. -/
theorem C7_sorted_by_confidence_desc (ratio : Str → Str → ℚ) (text : Str)
    (layouts : List PageLayout) (dn : String) :
    (find_framework_matches ratio text layouts dn).Pairwise
      (fun a b => b.confidence ≤ a.confidence) :=
  sortByConfDesc_sorted _

/-- Claim C6: every result set contains at most one match per framework, and
a framework whose accumulator stayed empty (no qualifying sentence)
contributes no match at all. -/
theorem C6_at_most_one_per_framework (ratio : Str → Str → ℚ) (text : Str)
    (layouts : List PageLayout) (dn : String) (F : String) :
    (find_framework_matches ratio text layouts dn).countP (fun m => m.framework == F) ≤ 1 ∧
    (∀ kws, (F, kws) ∈ ESG_FRAMEWORKS →
      best_matches ratio kws (segmentSentences text) = [] →
      ∀ m ∈ find_framework_matches ratio text layouts dn, m.framework ≠ F) := by
  constructor
  · rw [List.Perm.countP_eq _ (find_framework_matches_perm ratio text layouts dn)]
    have h1 : (buildMatches ratio layouts (segmentSentences text) ESG_FRAMEWORKS 1).countP
          (fun m => m.framework == F)
        = ((buildMatches ratio layouts (segmentSentences text) ESG_FRAMEWORKS 1).map
            ESGMatch.framework).countP (fun n => n == F) := by
      rw [List.countP_map]
      rfl
    rw [h1]
    refine le_trans
      (List.Sublist.countP_le (fun n => n == F)
        (buildMatches_fw_sublist ratio layouts (segmentSentences text) ESG_FRAMEWORKS 1)) ?_
    have h2 := List.nodup_iff_count_le_one.mp fwNames_nodup F
    simpa [List.count] using h2
  · intro kws hkws hempty m hm hF
    obtain ⟨kws2, s, conf, h1, h2, _⟩ := mem_ffm hm
    rw [hF] at h1
    have hkk : kws2 = kws := mem_fst_nodup_inj ESG_FRAMEWORKS fwNames_nodup h1 hkws
    rw [hkk, hempty] at h2
    simp at h2

lemma fsip_cases (s : Str) (layouts : List PageLayout) :
    (∃ pl ∈ layouts, find_sentence_in_pages s layouts
        = (pl.page_num, compute_sentence_bbox s pl)) ∨
    find_sentence_in_pages s layouts = (1, [0, 0, 100, 100]) := by
  unfold find_sentence_in_pages
  cases hf : layouts.find? (fun pl => isSub (lower (normWs (strip s))) (lower pl.raw_text)) with
  | some pl => exact Or.inl ⟨pl, List.mem_of_find?_eq_some hf, rfl⟩
  | none => exact Or.inr rfl

lemma one_le_total_pages (layouts : List PageLayout) : 1 ≤ total_pages layouts := by
  unfold total_pages
  cases layouts with
  | nil => simp
  | cons a as => simp

/-- Claim C4: a match produced by exact keyword containment has confidence
exactly 95 when the matched keyword is longer than 10 characters and exactly
85 otherwise, the matched keyword being the first containing variant in
catalog order (`exactFind`). -/
theorem C4_exact_confidence (ratio : Str → Str → ℚ) (text : Str)
    (layouts : List PageLayout) (dn : String) :
    ∀ m ∈ find_framework_matches ratio text layouts dn, ∀ kws kw,
      (m.framework, kws) ∈ ESG_FRAMEWORKS →
      exactFind kws (lower m.evidence) = some kw →
      m.confidence = if 10 < kw.length then (95 : ℚ) else 85 := by
  intro m hm kws kw hkws hex
  obtain ⟨kws2, s, conf, h1, h2, hev, hconf, _, _⟩ := mem_ffm hm
  have hkk : kws2 = kws := mem_fst_nodup_inj ESG_FRAMEWORKS fwNames_nodup h1 hkws
  subst hkk
  obtain ⟨pre, post, hsents, hpre, hdisj⟩ :=
    best_matches_head ratio kws2 (segmentSentences text) s conf h2
  have hsmem : s ∈ segmentSentences text := by
    rw [hsents]
    exact List.mem_append_right pre (List.mem_cons_self s post)
  have hss : strip s = s := strip_of_mem_segment hsmem
  rw [hev, hss] at hex
  rcases hdisj with ⟨kw2, hkw2, hconf2⟩ | ⟨hnone, _⟩
  · rw [hkw2] at hex
    injection hex with hkweq
    subst hkweq
    rw [hconf, hconf2]
  · rw [hnone] at hex
    cases hex

/-- Claim C2 (amended): a fuzzy-derived match (its evidence contains no
keyword variant) has confidence strictly greater than 80 and at most 90, and
no sentence preceding the evidence sentence in the segmented document (nor
the evidence sentence itself) contains any keyword variant of that framework
as a case-insensitive substring.  Sentences after the evidence sentence may
still contain exact keyword hits, which is what falsifies the claim as
stated. -/
theorem C2_fuzzy_semantics (ratio : Str → Str → ℚ) (text : Str)
    (layouts : List PageLayout) (dn : String) :
    ∀ m ∈ find_framework_matches ratio text layouts dn, ∀ kws,
      (m.framework, kws) ∈ ESG_FRAMEWORKS →
      exactFind kws (lower m.evidence) = none →
      (80 < m.confidence ∧ m.confidence ≤ 90) ∧
      ∃ pre post, segmentSentences text = pre ++ m.evidence :: post ∧
        ∀ t ∈ pre, exactFind kws (lower t) = none := by
  intro m hm kws hkws hnone
  obtain ⟨kws2, s, conf, h1, h2, hev, hconf, _, _⟩ := mem_ffm hm
  have hkk : kws2 = kws := mem_fst_nodup_inj ESG_FRAMEWORKS fwNames_nodup h1 hkws
  subst hkk
  obtain ⟨pre, post, hsents, hpre, hdisj⟩ :=
    best_matches_head ratio kws2 (segmentSentences text) s conf h2
  have hsmem : s ∈ segmentSentences text := by
    rw [hsents]
    exact List.mem_append_right pre (List.mem_cons_self s post)
  have hevs : m.evidence = s := by
    rw [hev]
    exact strip_of_mem_segment hsmem
  rw [hevs] at hnone
  rcases hdisj with ⟨kw, hkw, _⟩ | ⟨hn, kw, hfz, hcf⟩
  · rw [hkw] at hnone
    cases hnone
  · refine ⟨?_, pre, post, ?_, fun t ht => (hpre t ht).1⟩
    · have hfz2 : List.find? (fun v => decide (80 < ratio (lower v.data) (lower s))) kws2
          = some kw := hfz
      have h80 : (80 : ℚ) < ratio (lower kw.data) (lower s) := by
        have hp := List.find?_some hfz2
        simpa using hp
      rw [hconf, hcf]
      exact ⟨lt_min h80 (by norm_num), min_le_right _ _⟩
    · rw [hevs]
      exact hsents

/-- Claim C10: when the page-layout list is empty, every emitted match
carries page number 1 and the full-page box `[0, 0, 100, 100]`. -/
theorem C10_empty_layout_defaults (ratio : Str → Str → ℚ) (text : Str) (dn : String)
    (hne : text ≠ []) :
    ∀ m ∈ find_framework_matches ratio text [] dn,
      m.page_number = 1 ∧ m.bbox = [0, 0, 100, 100] := by
  intro m hm
  obtain ⟨kws, s, conf, _, _, _, _, hpg, hbb⟩ := mem_ffm hm
  have hfs : find_sentence_in_pages s [] = (1, [0, 0, 100, 100]) := rfl
  rw [hpg, hbb, hfs]
  exact ⟨rfl, rfl⟩

/-- Claim C9: under the page-numbering invariant that
`extract_selectable_text` establishes (layout k carries page number k+1, so
each page number lies in `[1, length]`), every match's page number lies in
`[1, total_pages]`, where `total_pages` is reported as 1 for an empty layout
list. -/
theorem C9_page_number_in_range (ratio : Str → Str → ℚ) (text : Str)
    (layouts : List PageLayout) (dn : String)
    (hpn : ∀ pl ∈ layouts, 1 ≤ pl.page_num ∧ pl.page_num ≤ (layouts.length : Int)) :
    ∀ m ∈ find_framework_matches ratio text layouts dn,
      1 ≤ m.page_number ∧ m.page_number ≤ (total_pages layouts : Int) := by
  intro m hm
  obtain ⟨kws, s, conf, _, _, _, _, hpg, _⟩ := mem_ffm hm
  rw [hpg]
  rcases fsip_cases s layouts with ⟨pl, hmem, heq⟩ | heq
  · rw [heq]
    have hbd := hpn pl hmem
    have hne2 : layouts.isEmpty = false := by
      cases layouts with
      | nil => simp at hmem
      | cons a as => rfl
    simpa [total_pages, hne2] using hbd
  · rw [heq]
    refine ⟨le_refl 1, ?_⟩
    show (1 : Int) ≤ (total_pages layouts : Int)
    exact_mod_cast one_le_total_pages layouts

/-- Claim C1 (amended): when the whitespace-normalised sentence is not
contained (case-insensitively) in any page's raw text, the locator returns
page 1 with the full-page box `[0, 0, 100, 100]` — not the placeholder
`[10, 45, 90, 55]` the claim states, which is the internal fallback of
`compute_sentence_bbox` and is only reachable on a page that does contain
the sentence. -/
theorem C1_not_found_default (sentence : Str) (layouts : List PageLayout)
    (h : ∀ pl ∈ layouts, isSub (lower (normWs (strip sentence))) (lower pl.raw_text) = false) :
    find_sentence_in_pages sentence layouts = (1, [0, 0, 100, 100]) := by
  unfold find_sentence_in_pages
  have hnone : layouts.find?
      (fun pl => isSub (lower (normWs (strip sentence))) (lower pl.raw_text)) = none := by
    refine List.find?_eq_none.mpr ?_
    intro pl hpl
    simp [h pl hpl]
  rw [hnone]

/-- Claim C1 counterexample: a sentence found on no page yields
`(1, [0, 0, 100, 100])`, not the placeholder box `[10, 45, 90, 55]` the
claim asserts. -/
theorem C1_counterexample :
    (∀ pl ∈ [exLayout], isSub (lower (normWs (strip c1sent))) (lower pl.raw_text) = false) ∧
    find_sentence_in_pages c1sent [exLayout] = (1, [0, 0, 100, 100]) ∧
    find_sentence_in_pages c1sent [exLayout] ≠ (1, ([10, 45, 90, 55] : List ℚ)) := by
  with_unfolding_all decide

/-- Witness for C1_not_found_default at a concrete sentence and layout. -/
theorem C1_witness :
    find_sentence_in_pages c1sent [exLayout] = (1, [0, 0, 100, 100]) :=
  C1_not_found_default c1sent [exLayout] (by with_unfolding_all decide)

/-- Claim C5: with trimmed selectable text of at least 200 characters the
method is "selectable" and OCR is never invoked; below 200 characters with
nonempty OCR output the method is "ocr"; below 200 characters with empty OCR
output (engine unavailable or failed) the method is "limited" and the step
still produces a result (the embedding is a total function). -/
theorem C5_extraction_method (text0 : Str) (ocr : OcrResults) :
    (200 ≤ (strip text0).length →
      (resolveExtraction text0 ocr).extraction_method = "selectable" ∧
      (resolveExtraction text0 ocr).ocr_consulted = false) ∧
    ((strip text0).length < 200 → ocr ≠ [] →
      (resolveExtraction text0 ocr).extraction_method = "ocr") ∧
    ((strip text0).length < 200 → ocr = [] →
      (resolveExtraction text0 ocr).extraction_method = "limited") := by
  refine ⟨?_, ?_, ?_⟩
  · intro h1
    have hlt : ¬ (strip text0).length < 200 := by omega
    unfold resolveExtraction
    rw [if_neg hlt]
    exact ⟨rfl, rfl⟩
  · intro h1 h2
    have hne : ocr.isEmpty = false := by
      cases ocr with
      | nil => exact absurd rfl h2
      | cons a as => rfl
    unfold resolveExtraction
    rw [if_pos h1, hne]
    rfl
  · intro h1 h2
    subst h2
    unfold resolveExtraction
    rw [if_pos h1]
    rfl

/-- Witness for C5_extraction_method: the example text is shorter than 200
characters and empty OCR output tags the run "limited". -/
theorem C5_witness :
    (strip exText).length < 200 ∧
      (resolveExtraction exText []).extraction_method = "limited" :=
  ⟨by decide, (C5_extraction_method exText []).2.2 (by decide) rfl⟩

lemma lineBoxStep_in {w h : ℚ} {acc : Option (ℚ × ℚ × ℚ × ℚ)} {sp : Span}
    (hacc : boxIn w h acc) (hsp : WFSpan w h sp) :
    boxIn w h (lineBoxStep acc sp) := by
  obtain ⟨g1, g2, g3, g4, g5, g6⟩ := hsp
  cases acc with
  | none => exact ⟨g1, g2, g3, g4, g5, g6⟩
  | some t =>
    obtain ⟨a, b, c, d⟩ := t
    obtain ⟨h1, h2, h3, h4, h5, h6⟩ := hacc
    refine ⟨le_min h1 g1, ?_, max_le h3 g3, le_min h4 g4, ?_, max_le h6 g6⟩
    · exact le_trans (min_le_left _ _) (le_trans h2 (le_max_left _ _))
    · exact le_trans (min_le_left _ _) (le_trans h5 (le_max_left _ _))

lemma lineBox_fold_in {w h : ℚ} :
    ∀ (spans : List Span) (acc : Option (ℚ × ℚ × ℚ × ℚ)),
      (∀ sp ∈ spans, WFSpan w h sp) → boxIn w h acc →
      boxIn w h (spans.foldl lineBoxStep acc)
  | [], _, _, hacc => hacc
  | sp :: rest, acc, hwf, hacc => by
    rw [List.foldl_cons]
    exact lineBox_fold_in rest _ (fun q hq => hwf q (List.mem_cons_of_mem sp hq))
      (lineBoxStep_in hacc (hwf sp (List.mem_cons_self sp rest)))

lemma lineBox_in {w h : ℚ} {spans : List Span}
    (hwf : ∀ sp ∈ spans, WFSpan w h sp) : boxIn w h (lineBox spans) :=
  lineBox_fold_in spans none hwf trivial

lemma bestLineBox_fold_in {w h : ℚ} {words : List Str} :
    ∀ (liness : List (List Span)) (acc : ℚ × Option (ℚ × ℚ × ℚ × ℚ)),
      (∀ spans ∈ liness, ∀ sp ∈ spans, WFSpan w h sp) → boxIn w h acc.2 →
      boxIn w h ((liness.foldl (bestStep words) acc).2)
  | [], _, _, hacc => hacc
  | spans :: rest, acc, hwf, hacc => by
    rw [List.foldl_cons]
    refine bestLineBox_fold_in rest _ (fun q hq => hwf q (List.mem_cons_of_mem spans hq)) ?_
    unfold bestStep
    by_cases hc : acc.1 < lineScore words spans ∧
        3 / 10 < lineScore words spans ∧ (lineBox spans).isSome
    · rw [if_pos hc]
      exact lineBox_in (hwf spans (List.mem_cons_self spans rest))
    · rw [if_neg hc]
      exact hacc

lemma bestLineBox_in {w h : ℚ} {words : List Str} {liness : List (List Span)}
    (hwf : ∀ spans ∈ liness, ∀ sp ∈ spans, WFSpan w h sp) :
    boxIn w h (bestLineBox words liness) :=
  bestLineBox_fold_in liness ((0 : ℚ), none) hwf trivial

lemma compute_sentence_bbox_ok (sentence : Str) (pl : PageLayout) (hwf : WFLayout pl) :
    bboxOK (compute_sentence_bbox sentence pl) := by
  obtain ⟨hw, hh, hspans⟩ := hwf
  unfold compute_sentence_bbox
  by_cases hempty : (splitWs (lower (normWs (strip sentence)))).isEmpty
  · rw [if_pos hempty]
    exact ⟨by norm_num, by norm_num, by norm_num, by norm_num, by norm_num, by norm_num⟩
  · rw [if_neg hempty]
    cases hbl : bestLineBox (splitWs (lower (normWs (strip sentence)))) (pageLines pl.blocks) with
    | some t =>
      obtain ⟨a, b, c, d⟩ := t
      have hin : boxIn pl.width pl.height (some (a, b, c, d)) := by
        rw [← hbl]
        exact bestLineBox_in hspans
      obtain ⟨h1, h2, h3, h4, h5, h6⟩ := hin
      have hz : ¬ (pl.width = 0 ∨ pl.height = 0) := by
        push_neg
        exact ⟨ne_of_gt hw, ne_of_gt hh⟩
      dsimp only
      rw [if_neg hz]
      have hx1 : (0 : ℚ) ≤ a / pl.width * 100 := by positivity
      have hx12 : a / pl.width * 100 ≤ c / pl.width * 100 := by
        have : a / pl.width ≤ c / pl.width := by gcongr
        nlinarith
      have hx2 : c / pl.width * 100 ≤ 100 := by
        have hd : c / pl.width ≤ 1 := (div_le_one hw).mpr h3
        nlinarith
      have hy1 : (0 : ℚ) ≤ b / pl.height * 100 := by positivity
      have hy12 : b / pl.height * 100 ≤ d / pl.height * 100 := by
        have : b / pl.height ≤ d / pl.height := by gcongr
        nlinarith
      have hy2 : d / pl.height * 100 ≤ 100 := by
        have hd : d / pl.height ≤ 1 := (div_le_one hh).mpr h6
        nlinarith
      refine ⟨le_max_left _ _, ?_, min_le_left _ _, le_max_left _ _, ?_, min_le_left _ _⟩
      · refine max_le (le_min (by norm_num) (by linarith)) (le_min (by linarith) (by linarith))
      · refine max_le (le_min (by norm_num) (by linarith)) (le_min (by linarith) (by linarith))
    | none =>
      cases hfs : findSub (lower ((normWs (strip sentence)).take 50)) (lower pl.raw_text) 0 with
      | some idx =>
        have htot : (0 : ℚ) < ((pl.raw_text.count '\n' : Nat) : ℚ) + 1 := by positivity
        dsimp only
        rw [if_pos htot]
        have hcnt : (pl.raw_text.take idx).count '\n' ≤ pl.raw_text.count '\n' := by
          simpa [List.count] using
            (List.Sublist.countP_le (fun c => c == '\n') (List.take_sublist idx pl.raw_text))
        have hlns : (0 : ℚ) ≤ (((pl.raw_text.take idx).count '\n' : Nat) : ℚ) := by positivity
        have hle : (((pl.raw_text.take idx).count '\n' : Nat) : ℚ)
            ≤ ((pl.raw_text.count '\n' : Nat) : ℚ) + 1 := by
          have : (((pl.raw_text.take idx).count '\n' : Nat) : ℚ)
              ≤ ((pl.raw_text.count '\n' : Nat) : ℚ) := by exact_mod_cast hcnt
          linarith
        have hy0 : (0 : ℚ) ≤ (((pl.raw_text.take idx).count '\n' : Nat) : ℚ)
            / (((pl.raw_text.count '\n' : Nat) : ℚ) + 1) * 100 := by positivity
        have hy100 : (((pl.raw_text.take idx).count '\n' : Nat) : ℚ)
            / (((pl.raw_text.count '\n' : Nat) : ℚ) + 1) * 100 ≤ 100 := by
          have hd : (((pl.raw_text.take idx).count '\n' : Nat) : ℚ)
              / (((pl.raw_text.count '\n' : Nat) : ℚ) + 1) ≤ 1 := (div_le_one htot).mpr hle
          nlinarith
        refine ⟨by norm_num, by norm_num, by norm_num, le_max_left _ _, ?_, min_le_left _ _⟩
        refine max_le (le_min (by norm_num) (by linarith)) (le_min (by linarith) (by linarith))
      | none =>
        exact ⟨by norm_num, by norm_num, by norm_num, by norm_num, by norm_num, by norm_num⟩

lemma fsip_bbox_ok (sentence : Str) (layouts : List PageLayout)
    (hwf : ∀ pl ∈ layouts, WFLayout pl) :
    bboxOK (find_sentence_in_pages sentence layouts).2 := by
  unfold find_sentence_in_pages
  cases hf : layouts.find?
      (fun pl => isSub (lower (normWs (strip sentence))) (lower pl.raw_text)) with
  | some pl =>
    exact compute_sentence_bbox_ok sentence pl (hwf pl (List.mem_of_find?_eq_some hf))
  | none =>
    exact ⟨by norm_num, by norm_num, by norm_num, by norm_num, by norm_num, by norm_num⟩

/-- Claim C8: every emitted match's bounding box `[x1, y1, x2, y2]` satisfies
`0 ≤ x1 ≤ x2 ≤ 100` and `0 ≤ y1 ≤ y2 ≤ 100`, across the line-overlap
strategy, the raw-text vertical-band estimate and the fixed fallback boxes,
for any layouts that are well-formed in the sense of `WFLayout`. -/
theorem C8_bbox_in_bounds (ratio : Str → Str → ℚ) (text : Str)
    (layouts : List PageLayout) (dn : String)
    (hwf : ∀ pl ∈ layouts, WFLayout pl) :
    ∀ m ∈ find_framework_matches ratio text layouts dn, bboxOK m.bbox := by
  intro m hm
  obtain ⟨kws, s, conf, _, _, _, _, _, hbb⟩ := mem_ffm hm
  rw [hbb]
  exact fsip_bbox_ok s layouts hwf

/-- Claim C2 counterexample: on `c2text` with `c2ratio` the emitted match for
the SASB framework is fuzzy-derived (its evidence, the first sentence,
contains no SASB keyword variant), even though the second sentence of the
document contains the keyword variant "sasb" exactly; this falsifies "no
sentence in the document contains any of that framework's keyword
variants". -/
theorem C2_counterexample :
    ("Sustainability Accounting Standards Board", sasbKeywords) ∈ ESG_FRAMEWORKS ∧
    find_framework_matches c2ratio c2text [] "doc" = [c2match] ∧
    exactFind sasbKeywords (lower c2match.evidence) = none ∧
    c2s2 ∈ segmentSentences c2text ∧
    exactFind sasbKeywords (lower c2s2) = some "sasb" ∧
    80 < c2match.confidence ∧ c2match.confidence ≤ 90 := by
  with_unfolding_all decide

/-- Witness for C2_fuzzy_semantics at the concrete fuzzy-derived match. -/
theorem C2_witness :
    (80 < c2match.confidence ∧ c2match.confidence ≤ 90) ∧
    ∃ pre post, segmentSentences c2text = pre ++ c2match.evidence :: post ∧
      ∀ t ∈ pre, exactFind sasbKeywords (lower t) = none :=
  C2_fuzzy_semantics c2ratio c2text [] "doc" c2match (by with_unfolding_all decide)
    sasbKeywords (by with_unfolding_all decide) (by with_unfolding_all decide)

/-- Witness for C4_exact_confidence: the example match stems from the exact
keyword "science based targets" (21 > 10 characters) and has confidence 95. -/
theorem C4_witness :
    exMatch ∈ find_framework_matches zeroRatio exText [exLayout] "doc" ∧
    exactFind sbtiKeywords (lower exMatch.evidence) = some "science based targets" ∧
    exMatch.confidence
      = if 10 < ("science based targets" : String).length then (95 : ℚ) else 85 :=
  ⟨by with_unfolding_all decide, by with_unfolding_all decide,
    C4_exact_confidence zeroRatio exText [exLayout] "doc" exMatch
      (by with_unfolding_all decide) sbtiKeywords "science based targets"
      (by with_unfolding_all decide) (by with_unfolding_all decide)⟩

/-- Witness for C6_at_most_one_per_framework at a concrete run and
framework. -/
theorem C6_witness :
    (find_framework_matches zeroRatio exText [] "doc").countP
        (fun m => m.framework == "UN Global Compact") ≤ 1 ∧
    best_matches zeroRatio ungcKeywords (segmentSentences exText) = [] ∧
    ∀ m ∈ find_framework_matches zeroRatio exText [] "doc",
      m.framework ≠ "UN Global Compact" :=
  ⟨(C6_at_most_one_per_framework zeroRatio exText [] "doc" "UN Global Compact").1,
   by with_unfolding_all decide,
   (C6_at_most_one_per_framework zeroRatio exText [] "doc" "UN Global Compact").2
     ungcKeywords (by with_unfolding_all decide) (by with_unfolding_all decide)⟩

/-- Witness for C8_bbox_in_bounds on the concrete example layout. -/
theorem C8_witness :
    (∀ pl ∈ [exLayout], WFLayout pl) ∧
    ∀ m ∈ find_framework_matches zeroRatio exText [exLayout] "doc", bboxOK m.bbox :=
  ⟨by with_unfolding_all decide,
   C8_bbox_in_bounds zeroRatio exText [exLayout] "doc" (by with_unfolding_all decide)⟩

/-- Witness for C9_page_number_in_range on the concrete example run. -/
theorem C9_witness :
    (∀ pl ∈ [exLayout], 1 ≤ pl.page_num ∧
        pl.page_num ≤ (([exLayout] : List PageLayout).length : Int)) ∧
    ∀ m ∈ find_framework_matches zeroRatio exText [exLayout] "doc",
      1 ≤ m.page_number ∧ m.page_number ≤ (total_pages [exLayout] : Int) :=
  ⟨by with_unfolding_all decide,
   C9_page_number_in_range zeroRatio exText [exLayout] "doc" (by with_unfolding_all decide)⟩

/-- Witness for C10_empty_layout_defaults on the concrete example run. -/
theorem C10_witness :
    exText ≠ [] ∧
    ∀ m ∈ find_framework_matches zeroRatio exText [] "doc",
      m.page_number = 1 ∧ m.bbox = [0, 0, 100, 100] :=
  ⟨by decide, C10_empty_layout_defaults zeroRatio exText "doc" (by decide)⟩

example : segmentSentences "Short one. We are committed to science based targets across all operations.".data =
    ["We are committed to science based targets across all operations".data] := by decide

example : splitTerm "a..b".data = ["a".data, "b".data] := by decide
example : splitTerm ".a.".data = [[], "a".data, []] := by decide
example : normWs "a \t b".data = "a b".data := by decide
example : splitWs "  a bb  ".data = ["a".data, "bb".data] := by decide
example : strip "  ab ".data = "ab".data := by decide
example : isSub "ab".data "xabz".data = true := by decide
example : isSub "ab".data "axb".data = false := by decide
example : findSub "b".data "ab".data 0 = some 1 := by decide

example : categorize_framework "Science Based Targets initiative" = "Environmental" := by decide
example : categorize_framework "Sustainability Accounting Standards Board" = "Governance" := by decide
example : categorize_framework "Fair Labor Association" = "Social" := by decide

